import Mathlib

set_option maxRecDepth 100000

/-!
Verification of the MUD inventory manager's parsing and bookkeeping core.

Shallow embedding of the Python sources:
  inventory_scanner.py  (item-line parsing, inventory/container output parsing)
  container_manager.py  (container mapping lookup, container detection)
  data_manager.py       (character data aggregation / dedup)
  house_scanner_v2.py   (room-config parsing)
  house_manager_v2.py   (room-config parsing, manager variant)
  main.py               (per-character scan driver control flow)

Strings are modelled as Lean `String` / `List Char`; Python `str.strip`,
`str.lower`, `str.split`, `in`, `startswith`, `endswith` and the regexes used by
the sources are given explicit executable definitions below.
-/

/-- Python whitespace class used by `str.strip` / `str.split` / regex `\s`
(ASCII portion). -/
def isSpc (c : Char) : Bool :=
  c = ' ' || c = '\t' || c = '\n' || c = '\r' || c = '\x0b' || c = '\x0c'

/-- Python `str.lower` (ASCII). -/
def pyLower (cs : List Char) : List Char := cs.map Char.toLower

/-- Drop leading whitespace (left part of Python `str.strip`). -/
def trimL (cs : List Char) : List Char := cs.dropWhile isSpc

/-- Drop trailing whitespace (right part of Python `str.strip`). -/
def trimR : List Char → List Char
  | [] => []
  | c :: rest => if trimR rest = [] && isSpc c then [] else c :: trimR rest

/-- Python `str.strip()`. -/
def pyStrip (cs : List Char) : List Char := trimR (trimL cs)

/-- Python `hay.startswith(needle)`: first argument is the needle. -/
def startsWithL : List Char → List Char → Bool
  | [], _ => true
  | _ :: _, [] => false
  | p :: ps, c :: cs => p = c && startsWithL ps cs

/-- Python `hay.endswith(needle)`: first argument is the needle. -/
def endsWithL (needle cs : List Char) : Bool :=
  startsWithL needle.reverse cs.reverse

/-- Python `needle in hay` (contiguous substring occurrence). -/
def subOccurs (needle : List Char) : List Char → Bool
  | [] => needle.isEmpty
  | c :: rest => startsWithL needle (c :: rest) || subOccurs needle rest

/-- Worker for `splitOnChar` (accumulates the current field reversed). -/
def splitChGo (sep : Char) (acc : List Char) : List Char → List (List Char)
  | [] => [acc.reverse]
  | c :: rest =>
    if c = sep then acc.reverse :: splitChGo sep [] rest
    else splitChGo sep (c :: acc) rest

/-- Python `s.split(sep)` for a one-character separator (keeps empty fields). -/
def splitOnChar (sep : Char) (cs : List Char) : List (List Char) :=
  splitChGo sep [] cs

/-- Worker for `pySplitWs`. -/
def splitWsGo (acc : List Char) : List Char → List (List Char)
  | [] => if acc = [] then [] else [acc.reverse]
  | c :: rest =>
    if isSpc c then
      if acc = [] then splitWsGo [] rest else acc.reverse :: splitWsGo [] rest
    else splitWsGo (c :: acc) rest

/-- Python `s.split()` (split on whitespace runs, no empty fields). -/
def pySplitWs (cs : List Char) : List (List Char) := splitWsGo [] cs

/-- Python `sep.join(parts)`. -/
def joinWith (sep : List Char) : List (List Char) → List Char
  | [] => []
  | [p] => p
  | p :: ps => p ++ sep ++ joinWith sep ps

/-- Python `s.find(c)` restricted to the found case (`none` for -1). -/
def firstIdxOf (c : Char) : List Char → Option Nat
  | [] => none
  | x :: xs => if x = c then some 0 else (firstIdxOf c xs).map (· + 1)

/-- Result of `re.search(r'\((\d+)\)\s*$', line)` from
`InventoryScanner.parse_item_line` (inventory_scanner.py:643): the digit group
and the text before the match, or `none` when the regex does not match.  Since
the pattern is anchored at the end of the line, a match is exactly: optional
trailing whitespace, preceded by `)`, preceded by a nonempty digit run,
preceded by `(`. -/
def trailingQty (cs : List Char) : Option (List Char × List Char) :=
  match (cs.reverse).dropWhile isSpc with
  | ')' :: r2 =>
    let ds := r2.takeWhile Char.isDigit
    if ds = [] then none
    else
      match r2.dropWhile Char.isDigit with
      | '(' :: pre => some (ds.reverse, pre.reverse)
      | _ => none
  | _ => none

/-- The article-removal step of `InventoryScanner.clean_item_name`
(inventory_scanner.py:668-674): the `startswith` tests run on the lowered
name, the slice on the original. -/
def articleDrop (name : List Char) : List Char :=
  if startsWithL ['a', ' '] (pyLower name) then name.drop 2
  else if startsWithL ['a', 'n', ' '] (pyLower name) then name.drop 3
  else if startsWithL ['t', 'h', 'e', ' '] (pyLower name) then name.drop 4
  else name

/-- `InventoryScanner.clean_item_name` (inventory_scanner.py:663-676):
strip, remove one leading article, strip again. -/
def cleanItemName (name : List Char) : List Char :=
  pyStrip (articleDrop (pyStrip name))

/-- The literal item lines `['nothing', 'none', 'empty']` rejected by
`parse_item_line` (inventory_scanner.py:635). -/
def badWords : List (List Char) :=
  ["nothing".data, "none".data, "empty".data]

/-- One parsed item, after `InventoryScanner.parse_item_line`
(inventory_scanner.py:654-661).  `scan_time` stands for the
`datetime.now().isoformat()` clock reading, modelled as an abstract tick. -/
structure ItemRecord where
  character : String
  location : String
  item_name : String
  quantity : String
  scan_time : Nat
  raw_line : String
deriving DecidableEq, Repr

/-- `InventoryScanner.parse_item_line` (inventory_scanner.py:633-661).
`now` is the clock reading, `ch` the scanner's `current_character`. -/
def parse_item_line (now : Nat) (ch : String) (line : List Char)
    (location : String) : Option ItemRecord :=
  if line = [] || pyLower line ∈ badWords then none
  else
    let qn : List Char × List Char :=
      match trailingQty line with
      | some (ds, pre) => (ds, pyStrip pre)
      | none => (['1'], line)
    let item_name := cleanItemName qn.2
    if item_name = [] then none
    else
      some { character := ch, location := location, item_name := ⟨item_name⟩,
             quantity := ⟨qn.1⟩, scan_time := now, raw_line := ⟨line⟩ }

/-- Status-line skip test shared by the output parsers
(inventory_scanner.py:503, 466): empty line or `[...]` status line. -/
def skipLine (line : List Char) : Bool :=
  line = [] || (startsWithL ['['] line && endsWithL [']'] line)

/-- Inventory header test (inventory_scanner.py:507): the line mentions
"you are carrying" and "items" or "item" (case-insensitive). -/
def invHeader (line : List Char) : Bool :=
  subOccurs "you are carrying".data (pyLower line) &&
    (subOccurs "items".data (pyLower line) || subOccurs "item".data (pyLower line))

/-- Loop-terminating prompt test shared by the output parsers
(inventory_scanner.py:512-514, 475-477). -/
def stopLine (line : List Char) : Bool :=
  endsWithL "HTY\\".data line || endsWithL ['>'] line ||
    (startsWithL ['['] line && subOccurs "hp".data line)

/-- Container-contents header test (inventory_scanner.py:470). -/
def contHeader (line : List Char) : Bool :=
  subOccurs "contains:".data (pyLower line) || subOccurs "holds:".data (pyLower line)

/-- Line loop of `InventoryScanner.parse_inventory_output`
(inventory_scanner.py:499-526).  `found` is the `found_header` flag, `seen`
the `seen_items` set (insertion order is irrelevant; membership only). -/
def invLoop (now : Nat) (ch : String) (found : Bool) (seen : List (List Char)) :
    List (List Char) → List ItemRecord
  | [] => []
  | l :: rest =>
    let line := pyStrip l
    if skipLine line then invLoop now ch found seen rest
    else if invHeader line then invLoop now ch true seen rest
    else if stopLine line then []
    else if found then
      if line ∈ seen then invLoop now ch found seen rest
      else
        match parse_item_line now ch line "inventory" with
        | some it => it :: invLoop now ch found (line :: seen) rest
        | none => invLoop now ch found (line :: seen) rest
    else invLoop now ch found seen rest

/-- `InventoryScanner.parse_inventory_output` (inventory_scanner.py:491-526). -/
def parse_inventory_output (now : Nat) (ch : String) (response : String) :
    List ItemRecord :=
  invLoop now ch false [] (splitOnChar '\n' response.data)

/-- Line loop of `InventoryScanner.parse_container_output`
(inventory_scanner.py:462-489); `inc` is the `in_contents` flag. -/
def contLoop (now : Nat) (ch : String) (cname : String) (inc : Bool)
    (seen : List (List Char)) : List (List Char) → List ItemRecord
  | [] => []
  | l :: rest =>
    let line := pyStrip l
    if skipLine line then contLoop now ch cname inc seen rest
    else if contHeader line then contLoop now ch cname true seen rest
    else if stopLine line then []
    else if inc then
      if line ∈ seen then contLoop now ch cname inc seen rest
      else
        match parse_item_line now ch line cname with
        | some it => it :: contLoop now ch cname inc (line :: seen) rest
        | none => contLoop now ch cname inc (line :: seen) rest
    else contLoop now ch cname inc seen rest

/-- `InventoryScanner.parse_container_output` (inventory_scanner.py:454-489). -/
def parse_container_output (now : Nat) (ch : String) (cname : String)
    (response : String) : List ItemRecord :=
  contLoop now ch cname false [] (splitOnChar '\n' response.data)

/-!  container_manager.py  -/

/-- One step of `re.sub(r'\x1b\[[0-9;]*m', '', ...)`: match an ANSI escape
sequence at the head of the list, returning the remainder. -/
def ansiMatchAt : List Char → Option (List Char)
  | '\x1b' :: '[' :: rest =>
    match rest.dropWhile (fun c => c.isDigit || c = ';') with
    | 'm' :: r => some r
    | _ => none
  | _ => none

/-- Fuel-driven scan for `stripAnsi`; each step consumes at least one
character, so fuel = length is always sufficient. -/
def stripAnsiGo : Nat → List Char → List Char
  | 0, cs => cs
  | _ + 1, [] => []
  | fuel + 1, c :: rest =>
    match ansiMatchAt (c :: rest) with
    | some r => stripAnsiGo fuel r
    | none => c :: stripAnsiGo fuel rest

/-- `re.sub(r'\x1b\[[0-9;]*m', '', s)` as used in
`ContainerManager._strip_item_flags` (container_manager.py:103). -/
def stripAnsi (cs : List Char) : List Char := stripAnsiGo cs.length cs

/-- One step of `re.sub(r'\\x1b\[[0-9;]*m', '', ...)` (the literal-backslash
variant used in house_scanner_v2.py and data_manager.py). -/
def ansiLitMatchAt : List Char → Option (List Char)
  | '\\' :: 'x' :: '1' :: 'b' :: '[' :: rest =>
    match rest.dropWhile (fun c => c.isDigit || c = ';') with
    | 'm' :: r => some r
    | _ => none
  | _ => none

/-- Fuel-driven scan for `stripAnsiLit`. -/
def stripAnsiLitGo : Nat → List Char → List Char
  | 0, cs => cs
  | _ + 1, [] => []
  | fuel + 1, c :: rest =>
    match ansiLitMatchAt (c :: rest) with
    | some r => stripAnsiLitGo fuel r
    | none => c :: stripAnsiLitGo fuel rest

/-- `re.sub(r'\\x1b\[[0-9;]*m', '', s)`. -/
def stripAnsiLit (cs : List Char) : List Char := stripAnsiLitGo cs.length cs

/-- One step of `re.sub(r'^(\([^)]+\)\s*)+', '', ...)`: match one
parenthesized flag group `\([^)]+\)\s*` at the head. -/
def parenGroupAt : List Char → Option (List Char)
  | '(' :: rest =>
    if rest.takeWhile (· ≠ ')') = [] then none
    else
      match rest.dropWhile (· ≠ ')') with
      | ')' :: r => some (r.dropWhile isSpc)
      | _ => none
  | _ => none

/-- Fuel-driven scan for `dropParenGroups`. -/
def dropParenGroupsGo : Nat → List Char → List Char
  | 0, cs => cs
  | fuel + 1, cs =>
    match parenGroupAt cs with
    | some r => dropParenGroupsGo fuel r
    | none => cs

/-- `re.sub(r'^(\([^)]+\)\s*)+', '', s)` from
`ContainerManager._strip_item_flags` (container_manager.py:110): the greedy
anchored match removes every leading parenthesized flag group. -/
def dropParenGroups (cs : List Char) : List Char :=
  dropParenGroupsGo cs.length cs

/-- `ContainerManager._strip_item_flags` (container_manager.py:90-112):
strip ANSI codes, normalize internal spaces, drop leading flag groups,
strip. -/
def strip_item_flags (item_name : String) : String :=
  ⟨pyStrip (dropParenGroups (joinWith [' '] (pySplitWs (stripAnsi item_name.data))))⟩

/-- Exact case-insensitive match stage of
`ContainerManager._find_container_mapping` (container_manager.py:128-130). -/
def exactStage (item_normalized : List Char) :
    List (String × String) → Option String
  | [] => none
  | (k, v) :: rest =>
    if pyLower k.data = item_normalized then some v
    else exactStage item_normalized rest

/-- Inner mapping loop of the with-article stage (container_manager.py:136-138):
compares each mapping key, lowered, with the lowered articled name. -/
def articleAddLoop (with_article_normalized : List Char) :
    List (String × String) → Option String
  | [] => none
  | (k, v) :: rest =>
    if pyLower k.data = with_article_normalized then some v
    else articleAddLoop with_article_normalized rest

/-- With-article stage of `_find_container_mapping`
(container_manager.py:133-138): tries `a`, `an`, `the` prepended to the
original item name, in that order. -/
def articleAddStage (m : List (String × String)) (item_name : String) :
    Option String :=
  match articleAddLoop (pyLower ("a ".data ++ item_name.data)) m with
  | some v => some v
  | none =>
    match articleAddLoop (pyLower ("an ".data ++ item_name.data)) m with
    | some v => some v
    | none => articleAddLoop (pyLower ("the ".data ++ item_name.data)) m

/-- Article-removal stage of `_find_container_mapping`
(container_manager.py:141-155): the `startswith` tests run on the normalized
name, the slice on the original item name. -/
def articleRemoveStage (m : List (String × String)) (item_name : String)
    (item_normalized : List Char) : Option String :=
  if startsWithL "a ".data item_normalized ||
      startsWithL "an ".data item_normalized ||
      startsWithL "the ".data item_normalized then
    let without_article : List Char :=
      if startsWithL "a ".data item_normalized then pyStrip (item_name.data.drop 2)
      else if startsWithL "an ".data item_normalized then
        pyStrip (item_name.data.drop 3)
      else if startsWithL "the ".data item_normalized then
        pyStrip (item_name.data.drop 4)
      else item_name.data
    articleAddLoop (pyLower without_article) m
  else none

/-- Substring stage of `_find_container_mapping` (container_manager.py:157-166):
a substring match in either direction is accepted only when the mapping key is
multi-word or the item name is single-word. -/
def substringStage (item_normalized : List Char) :
    List (String × String) → Option String
  | [] => none
  | (k, v) :: rest =>
    if (subOccurs (pyLower k.data) item_normalized ||
          subOccurs item_normalized (pyLower k.data)) &&
        (decide ((pySplitWs (pyLower k.data)).length > 1) ||
          decide ((pySplitWs item_normalized).length = 1)) then
      some v
    else substringStage item_normalized rest

/-- `ContainerManager._find_container_mapping` (container_manager.py:114-168).
The mapping dict is modelled as an association list in insertion order. -/
def find_container_mapping (m : List (String × String)) (item_name : String) :
    Option String :=
  let item_normalized := pyStrip (pyLower item_name.data)
  match exactStage item_normalized m with
  | some v => some v
  | none =>
    match articleAddStage m item_name with
    | some v => some v
    | none =>
      match articleRemoveStage m item_name item_normalized with
      | some v => some v
      | none => substringStage item_normalized m

/-- Container-indicating substrings of `ContainerManager._might_be_container`
(container_manager.py:172-176). -/
def containerIndicators : List String :=
  ["basket", "pouch", "bag", "sack", "chest", "case", "container",
   "box", "crate", "barrel", "pack", "satchel", "knapsack", "backpack",
   "rift", "portal", "void", "pocket", "quiver", "sheath", "scabbard"]

/-- `ContainerManager._might_be_container` (container_manager.py:170-179). -/
def might_be_container (item_name : String) : Bool :=
  containerIndicators.any (fun ind => subOccurs ind.data (pyLower item_name.data))

/-- Appends `a` unless already present: the dedup-append idiom of
`detect_containers_in_inventory` (container_manager.py:78-79, 84-85). -/
def insertNew (l : List String) (a : String) : List String :=
  if a ∈ l then l else l ++ [a]

/-- Item loop of `ContainerManager.detect_containers_in_inventory`
(container_manager.py:64-86).  The three branches mirror Python truthiness of
`container_keyword`: a present non-empty keyword is detected, otherwise the
item falls through to the unknown-container heuristic. -/
def detectLoop (m : List (String × String)) :
    List ItemRecord → List String → List String → List String × List String
  | [], det, unk => (det, unk)
  | it :: rest, det, unk =>
    let cn := strip_item_flags it.item_name
    match find_container_mapping m cn with
    | some kw =>
      if kw ≠ "" then detectLoop m rest (insertNew det kw) unk
      else if might_be_container cn then detectLoop m rest det (insertNew unk cn)
      else detectLoop m rest det unk
    | none =>
      if might_be_container cn then detectLoop m rest det (insertNew unk cn)
      else detectLoop m rest det unk

/-- `ContainerManager.detect_containers_in_inventory`
(container_manager.py:54-88): returns (detected container keywords,
unknown potential container names). -/
def detect_containers_in_inventory (m : List (String × String))
    (items : List ItemRecord) : List String × List String :=
  detectLoop m items [] []

/-- The keyword a single inventory item contributes to the detected list, if
any: a successful, non-empty (truthy) mapping lookup on its flag-stripped
name. -/
def mappedKeyword (m : List (String × String)) (it : ItemRecord) :
    Option String :=
  match find_container_mapping m (strip_item_flags it.item_name) with
  | some kw => if kw = "" then none else some kw
  | none => none

/-- Boolean pairwise-distinct test for string lists. -/
def distinctL : List String → Bool
  | [] => true
  | s :: rest => !rest.contains s && distinctL rest

/-!  data_manager.py  -/

/-- A character stat record (data_manager.py): a dict with a required
`character` key; the remaining attribute fields are carried opaquely. -/
structure StatRecord where
  character : String
  fields : List (String × String)
deriving DecidableEq, Repr

/-- The working set of `DataManager` (data_manager.py:18-20). -/
structure DMState where
  all_data : List ItemRecord
  character_stats : List StatRecord
deriving DecidableEq, Repr

/-- The empty working set (`DataManager(load_existing=False)`). -/
def DMState.empty : DMState := ⟨[], []⟩

/-- Result of `re.search(r'[\x1b\\].*?m', name)` (data_manager.py:115): some
`ESC` or backslash character is followed by an `m` with no newline between
(regex `.` does not match a newline). -/
def ansiSuspect : List Char → Bool
  | [] => false
  | c :: rest =>
    ((c = '\x1b' || c = '\\') && (rest.takeWhile (· ≠ '\n')).contains 'm') ||
      ansiSuspect rest

/-- House-name test of `DataManager.add_character_data`
(data_manager.py:131, 158): `'_house' in name.lower() or '_House' in name`. -/
def isHouseName (name : String) : Bool :=
  subOccurs "_house".data (pyLower name.data) || subOccurs "_House".data name.data

/-- `DataManager.normalize_character_name` (data_manager.py:25-31): strip
whitespace, preserve casing. -/
def normalize_character_name (name : String) : String := ⟨pyStrip name.data⟩

/-- Replace the first stat record whose lowered name equals `key` by `s`, or
append `s`: the find-index-then-replace-else-append logic of
data_manager.py:169-187. -/
def replaceFirst (s : StatRecord) (key : List Char) :
    List StatRecord → List StatRecord
  | [] => [s]
  | t :: rest =>
    if pyLower t.character.data = key then s :: rest
    else t :: replaceFirst s key rest

/-- Stats half of `DataManager.add_character_data` (data_manager.py:154-187). -/
def statsPhase (dm : DMState) : Option StatRecord → DMState
  | none => dm
  | some s =>
    let normalized :=
      if isHouseName s.character then s.character
      else normalize_character_name s.character
    let s' : StatRecord := { s with character := normalized }
    { dm with character_stats :=
        replaceFirst s' (pyLower normalized.data) dm.character_stats }

/-- Items half of `DataManager.add_character_data` (data_manager.py:130-152):
normalize the character name on every item (non-house only), then replace
that character's items. -/
def itemsPhase (dm : DMState) (character_data : List ItemRecord)
    (original_name : String) : DMState :=
  let normalized :=
    if isHouseName original_name then original_name
    else normalize_character_name original_name
  let data' :=
    if isHouseName original_name then character_data
    else character_data.map (fun it => { it with character := normalized })
  { dm with all_data :=
      dm.all_data.filter (fun it => it.character ≠ normalized) ++ data' }

/-- `DataManager.add_character_data` (data_manager.py:106-191).  `char_stats`
is `None` or a stat dict (Python's falsy-empty-dict case is subsumed by
`none`).  The corrupted-name branch (data_manager.py:115-128) attempts one
ANSI-stripping recovery and otherwise returns with nothing added. -/
def add_character_data (dm : DMState) (character_data : List ItemRecord)
    (char_stats : Option StatRecord) : DMState :=
  match character_data with
  | [] => statsPhase dm char_stats
  | first :: _ =>
    let original_name := first.character
    if ansiSuspect original_name.data then
      let clean : String := ⟨pyStrip (stripAnsiLit (stripAnsi original_name.data))⟩
      if clean ≠ "" && clean.length < 50 then
        statsPhase
          (itemsPhase dm
            (character_data.map (fun it => { it with character := clean })) clean)
          char_stats
      else dm
    else statsPhase (itemsPhase dm character_data original_name) char_stats

/-- Pairwise-distinct lowered character names: the dedup invariant over the
stats working set. -/
def noDupKeys : List StatRecord → Bool
  | [] => true
  | t :: rest =>
    !rest.any (fun b => pyLower b.character.data = pyLower t.character.data) &&
      noDupKeys rest

/-- A whole scanning session against the data manager: fold a sequence of
`add_character_data` calls over the empty working set. -/
def runAdds (calls : List (List ItemRecord × Option StatRecord)) : DMState :=
  calls.foldl (fun dm c => add_character_data dm c.1 c.2) DMState.empty

/-!  house_manager_v2.py / house_scanner_v2.py room-config parsing  -/

/-- One parsed room configuration (house_manager_v2.py:111-115,
house_scanner_v2.py:188-192). -/
structure Room where
  name : String
  path : String
  containers : List String
deriving DecidableEq, Repr

/-- Per-entry parsing shared by both room-config parsers
(house_manager_v2.py:103-115, house_scanner_v2.py:180-192); `sepC` is the
container separator (`,` for the manager, `;` for the scanner). -/
def roomOfEntry (sepC : Char) (entry : List Char) : Option Room :=
  let parts := splitOnChar ':' entry
  if parts.length ≥ 3 then
    let room_name := pyStrip parts.headI
    let room_path := pyStrip (parts.tail.headI)
    let containers_str := pyStrip (joinWith [':'] (parts.drop 2))
    let containers :=
      ((splitOnChar sepC containers_str).map pyStrip).filter (· ≠ [])
    some { name := ⟨room_name⟩,
           path := if room_path = "start".data then "" else ⟨room_path⟩,
           containers := containers.map (fun c => (⟨c⟩ : String)) }
  else none

/-- `HouseManagerV2.parse_rooms` (house_manager_v2.py:84-117): `|`-separated
room entries when `|` is present, else `;`-separated; containers are
`,`-separated. -/
def parse_rooms (rooms_str : String) : List Room :=
  if pyStrip rooms_str.data = [] then []
  else
    let room_entries :=
      if rooms_str.data.contains '|' then
        ((splitOnChar '|' rooms_str.data).map pyStrip).filter (· ≠ [])
      else ((splitOnChar ';' rooms_str.data).map pyStrip).filter (· ≠ [])
    room_entries.filterMap (roomOfEntry ',')

/-- Fallback room-entry recovery of `HouseScannerV2._parse_room_config`
(house_scanner_v2.py:146-178), used when no `|` separator is present: walks
the `:`-split parts three at a time, splitting a containers field at its
first `;` when more parts follow.  The Python loop re-splits
`containers[pos+1:] + ':' + ':'.join(parts[3:])` on `:`; since fields of a
`:`-split contain no `:`, that re-split is exactly
`containers[pos+1:] :: parts[3:]`, which is how the recursion proceeds. -/
def fallbackLoop : List (List Char) → List (List Char)
  | r :: p :: c :: rest =>
    (match firstIdxOf ';' c with
     | some k =>
       if 0 < k ∧ rest ≠ [] then
         (r ++ ':' :: p ++ ':' :: c.take k) :: fallbackLoop (c.drop (k + 1) :: rest)
       else [r ++ ':' :: p ++ ':' :: c]
     | none => [r ++ ':' :: p ++ ':' :: c])
  | _ => []
termination_by l => l.length
decreasing_by simp_arith

/-- `HouseScannerV2._parse_room_config` (house_scanner_v2.py:123-194):
like `parse_rooms` but with `;`-separated containers, a default room for an
empty config, and the fallback recovery when `|` is absent. -/
def parse_room_config (rooms_str : String) : List Room :=
  if pyStrip rooms_str.data = [] then [{ name := "Main Room", path := "", containers := [] }]
  else
    let room_entries :=
      if rooms_str.data.contains '|' then
        ((splitOnChar '|' rooms_str.data).map pyStrip).filter (· ≠ [])
      else fallbackLoop (splitOnChar ':' rooms_str.data)
    room_entries.filterMap (roomOfEntry ';')

/-- Movement tokens of a stored room path, as issued by
`HouseScannerV2._navigate_to_room` (house_scanner_v2.py:201): the path is
split on `;`, each command stripped, empties dropped. -/
def navTokens (path : String) : List String :=
  (((splitOnChar ';' path.data).map pyStrip).filter (· ≠ [])).map
    (fun c => (⟨c⟩ : String))

/-!  main.py per-character scan driver (claim C6)  -/

/-- Outcome of one attempt of the retry loop in `scan_character`
(main.py:224-272): the connect call fails, the login call fails, the scan
body raises, or everything succeeds. -/
inductive AttemptOutcome
  | connectFail
  | loginFail
  | scanExc
  | success
deriving DecidableEq, Repr

/-- What one attempt does with the session transport.  `opened` records
whether `client.connect()` established the connection; `disconnected` records
whether any path of that attempt calls `client.disconnect()` before the
attempt ends (main.py:231-276):
  * connect failure (main.py:231-234): nothing was opened, no disconnect;
  * login failure (main.py:237-241): `await client.disconnect()` is called;
  * scan exception (main.py:268-272): the `except` branch logs and retries
    without any disconnect call;
  * success (main.py:260-262): `logout` then `disconnect` are called. -/
def attemptTrace : AttemptOutcome → Bool × Bool
  | .connectFail => (false, false)
  | .loginFail => (true, true)
  | .scanExc => (true, false)
  | .success => (true, true)

/-- `MAX_RETRIES` (config.py:43). -/
def MAX_RETRIES : Nat := 3

/-- Traces of the attempts actually executed by `scan_character`
(main.py:224): at most `fuel` attempts, stopping after the first success. -/
def scanTraces : Nat → List AttemptOutcome → List (Bool × Bool)
  | 0, _ => []
  | _ + 1, [] => []
  | n + 1, o :: rest =>
    attemptTrace o :: (if o = .success then [] else scanTraces n rest)

/-- Per-attempt transport traces of one `scan_character` call (main.py:219-276)
under an oracle fixing each attempt's outcome. -/
def scan_character_traces (outcomes : List AttemptOutcome) : List (Bool × Bool) :=
  scanTraces MAX_RETRIES outcomes

/-- Erase the clock field of a record (for comparing parses across clock
readings). -/
def ItemRecord.eraseTime (it : ItemRecord) : ItemRecord :=
  { it with scan_time := 0 }

/-- Stamp a record with clock reading `t`. -/
def ItemRecord.setTime (t : Nat) (it : ItemRecord) : ItemRecord :=
  { it with scan_time := t }

/-!  Theorems  -/

/-- C4: container mapping lookup is case-insensitive and article-tolerant:
with the mapping table `{"large basket": "basket"}`, both the item name
`"a large basket"` and the item name `"Large Basket"` resolve to the
container keyword `"basket"`. -/
theorem container_mapping_lookup_tolerant :
    find_container_mapping [("large basket", "basket")] "a large basket" =
      some "basket" ∧
    find_container_mapping [("large basket", "basket")] "Large Basket" =
      some "basket" := by
  decide

/-- C6: with the scan body raising an exception after a successful connect
and login, the per-character driver `scan_character` ends the attempt with
the transport still open: its `except` branch retries without calling
`disconnect`, so resource release does depend on scan success, contradicting
the specified regardless-of-success close. -/
theorem scan_exception_leaves_transport_open :
    (scan_character_traces [AttemptOutcome.scanExc]).any
      (fun t => t.1 && !t.2) = true := by
  decide

/-- C2 counterexample: the house scanner's room-config parser
(`HouseScannerV2._parse_room_config`) separates containers with `;`, not `,`,
so on `"Vault:u;n:chest,urn|Hall:start:shelf"` the first room's container
list is the single entry `"chest,urn"`, not `["chest","urn"]` as claimed. -/
theorem parse_room_config_comma_cex :
    parse_room_config "Vault:u;n:chest,urn|Hall:start:shelf" =
      [{ name := "Vault", path := "u;n", containers := ["chest,urn"] },
       { name := "Hall", path := "", containers := ["shelf"] }] ∧
    (parse_room_config "Vault:u;n:chest,urn|Hall:start:shelf").map
        Room.containers ≠ [["chest", "urn"], ["shelf"]] := by
  decide

/-- C2 amended: the house manager's room parser (`HouseManagerV2.parse_rooms`)
parses `"Vault:u;n:chest,urn|Hall:start:shelf"` into exactly two rooms: Vault
with stored navigation path `"u;n"` (issued as the movement commands `"u"`
then `"n"`) and containers `["chest","urn"]`, and Hall at the anchor point
(empty path, no movement commands) with containers `["shelf"]`. -/
theorem parse_rooms_house_config :
    parse_rooms "Vault:u;n:chest,urn|Hall:start:shelf" =
      [{ name := "Vault", path := "u;n", containers := ["chest", "urn"] },
       { name := "Hall", path := "", containers := ["shelf"] }] ∧
    navTokens "u;n" = ["u", "n"] ∧ navTokens "" = [] := by
  decide

/-- C5 counterexample: with the mapping table `{"bag": "sack"}`, the lookup
accepts the single-letter item `"b"` (a trivial single-common-word substring
collision between two different single-word names, which the claim says is
rejected) and rejects the multi-word item `"leather bag"` (which the claim's
"key or item multi-word" rule would accept). -/
theorem substring_match_rule_cex :
    find_container_mapping [("bag", "sack")] "b" = some "sack" ∧
    find_container_mapping [("bag", "sack")] "leather bag" = none := by
  decide

/-- C7 counterexample: the cleaned name is not byte-identical to the
remainder after the article: for `"a  bag"` (two spaces after the article)
the remainder is `" bag"` but `clean_item_name` also strips the surrounding
whitespace and stores `"bag"`. -/
theorem clean_item_name_whitespace_cex :
    cleanItemName "a  bag".data = "bag".data ∧
    cleanItemName "a  bag".data ≠ " bag".data := by
  decide

/-- C8 counterexample: parsing the same raw inventory response twice with the
same location context and character does not yield identical record sets,
because each record's `scan_time` field is read from the clock at parse time:
the two calls here differ only in the clock reading. -/
theorem parse_scan_time_cex :
    parse_inventory_output 0 "K" "You are carrying 1 item:\na bag" ≠
      parse_inventory_output 1 "K" "You are carrying 1 item:\na bag" := by
  decide

/-- C1 counterexample: parsing the line `"3 shining rubies (5)"` stores
item name `"3 shining rubies"`: the trailing parenthesized quantity is
extracted, but the leading numeral prefix stays part of the stored name,
contrary to the claimed `"shining rubies"`. -/
theorem parse_item_line_numeral_kept_cex :
    (parse_item_line 0 "Kaan" "3 shining rubies (5)".data "inventory").map
        ItemRecord.item_name = some "3 shining rubies" ∧
    (parse_item_line 0 "Kaan" "3 shining rubies (5)".data "inventory").map
        ItemRecord.item_name ≠ some "shining rubies" := by
  decide

/-- C5 amended: in the substring-match stage of container-mapping lookup, a
mapping `(k, v)` accepts the normalized item name if and only if the lowered
key occurs in the item name or the item name occurs in the lowered key, and
additionally the lowered key is multi-word or the item name is single-word
(the code's test `len(mapping_normalized.split()) > 1 or
len(item_normalized.split()) == 1`); in particular a single-word key and a
distinct multi-word item are rejected even though one contains the other,
while two distinct single-word names in a containment relation are
accepted. -/
theorem substring_stage_accept_iff (k v : String) (item_normalized : List Char) :
    substringStage item_normalized [(k, v)] = some v ↔
      ((subOccurs (pyLower k.data) item_normalized = true ∨
        subOccurs item_normalized (pyLower k.data) = true) ∧
       ((pySplitWs (pyLower k.data)).length > 1 ∨
        (pySplitWs item_normalized).length = 1)) := by
  simp only [substringStage]
  split
  next h =>
    simp only [Bool.and_eq_true, Bool.or_eq_true, decide_eq_true_eq] at h
    simp [h]
  next h =>
    simp only [Bool.and_eq_true, Bool.or_eq_true, decide_eq_true_eq] at h
    constructor
    · intro hc; cases hc
    · intro hc; exact absurd hc h

/-- Stamping with the parse-time clock is the only effect of the clock on
`parse_item_line`. -/
theorem parse_item_line_time (t : Nat) (ch : String) (line : List Char)
    (loc : String) :
    parse_item_line t ch line loc =
      (parse_item_line 0 ch line loc).map (ItemRecord.setTime t) := by
  simp only [parse_item_line]
  split
  · rfl
  · split
    · rfl
    · rfl

/-- Clock invariance of the inventory-output line loop. -/
theorem invLoop_time (t : Nat) (ch : String) :
    ∀ (ls : List (List Char)) (found : Bool) (seen : List (List Char)),
      invLoop t ch found seen ls =
        (invLoop 0 ch found seen ls).map (ItemRecord.setTime t) := by
  intro ls
  induction ls with
  | nil => intro found seen; rfl
  | cons l rest ih =>
    intro found seen
    simp only [invLoop]
    split
    · exact ih found seen
    · split
      · exact ih true seen
      · split
        · rfl
        · split
          · split
            · exact ih found seen
            · rw [parse_item_line_time]
              rcases h : parse_item_line 0 ch (pyStrip l) "inventory" with _ | it
              · simpa using ih found (pyStrip l :: seen)
              · simpa using ih found (pyStrip l :: seen)
          · exact ih found seen

/-- Clock invariance of the container-output line loop. -/
theorem contLoop_time (t : Nat) (ch cname : String) :
    ∀ (ls : List (List Char)) (inc : Bool) (seen : List (List Char)),
      contLoop t ch cname inc seen ls =
        (contLoop 0 ch cname inc seen ls).map (ItemRecord.setTime t) := by
  intro ls
  induction ls with
  | nil => intro inc seen; rfl
  | cons l rest ih =>
    intro inc seen
    simp only [contLoop]
    split
    · exact ih inc seen
    · split
      · exact ih true seen
      · split
        · rfl
        · split
          · split
            · exact ih inc seen
            · rw [parse_item_line_time]
              rcases h : parse_item_line 0 ch (pyStrip l) cname with _ | it
              · simpa using ih inc (pyStrip l :: seen)
              · simpa using ih inc (pyStrip l :: seen)
          · exact ih inc seen

/-- Erasing the clock from a freshly stamped record erases the stamp. -/
theorem eraseTime_setTime (t : Nat) (it : ItemRecord) :
    (ItemRecord.setTime t it).eraseTime = it.eraseTime := rfl

/-- C8 amended: parsing the same raw response text twice with the same
location context and character yields record sets that are identical except
in the `scan_time` field, which records the clock at parse time: apart from
that timestamp, the inventory and container parsers are pure functions of
the response text and context, with no hidden mutable state. -/
theorem parse_output_clock_invariant (t1 t2 : Nat) (ch cname response : String) :
    (parse_inventory_output t1 ch response).map ItemRecord.eraseTime =
      (parse_inventory_output t2 ch response).map ItemRecord.eraseTime ∧
    (parse_container_output t1 ch cname response).map ItemRecord.eraseTime =
      (parse_container_output t2 ch cname response).map ItemRecord.eraseTime := by
  constructor
  · simp only [parse_inventory_output, invLoop_time t1, invLoop_time t2,
      List.map_map]
    rfl
  · simp only [parse_container_output, contLoop_time t1, contLoop_time t2,
      List.map_map]
    rfl

/-- A record produced by `parse_item_line` carries the parsed line as its
`raw_line`. -/
theorem parse_item_line_raw (now : Nat) (ch : String) (line : List Char)
    (loc : String) (it : ItemRecord)
    (h : parse_item_line now ch line loc = some it) : it.raw_line.data = line := by
  simp only [parse_item_line] at h
  split at h
  · cases h
  · split at h
    · cases h
    · cases h
      rfl

/-- Records emitted by the inventory line loop have raw lines outside `seen`
and pairwise distinct raw lines. -/
theorem invLoop_raw_distinct (now : Nat) (ch : String) :
    ∀ (ls : List (List Char)) (found : Bool) (seen : List (List Char)),
      (∀ it ∈ invLoop now ch found seen ls, it.raw_line.data ∉ seen) ∧
        (invLoop now ch found seen ls).Pairwise
          (fun a b => a.raw_line.data ≠ b.raw_line.data) := by
  intro ls
  induction ls with
  | nil => intro found seen; exact ⟨(by intro it h; cases h), List.Pairwise.nil⟩
  | cons l rest ih =>
    intro found seen
    simp only [invLoop]
    split
    · exact ih found seen
    · split
      · exact ih true seen
      · split
        · exact ⟨(by intro it h; cases h), List.Pairwise.nil⟩
        · split
          · split
            · exact ih found seen
            · rcases h : parse_item_line now ch (pyStrip l) "inventory" with _ | it
              · have := ih found (pyStrip l :: seen)
                refine ⟨fun it hm => ?_, this.2⟩
                have h2 := this.1 it hm
                intro hc
                exact h2 (List.mem_cons_of_mem _ hc)
              · have hr := parse_item_line_raw now ch (pyStrip l) "inventory" it h
                have := ih found (pyStrip l :: seen)
                constructor
                · intro it' hm
                  rcases List.mem_cons.mp hm with rfl | hm'
                  · rw [hr]; assumption
                  · have h2 := this.1 it' hm'
                    intro hc
                    exact h2 (List.mem_cons_of_mem _ hc)
                · refine List.Pairwise.cons (fun it' hm' => ?_) this.2
                  have h2 := this.1 it' hm'
                  rw [hr]
                  intro hc
                  exact h2 (hc ▸ List.mem_cons_self _ _)
          · exact ih found seen

/-- Records emitted by the container line loop have raw lines outside `seen`
and pairwise distinct raw lines. -/
theorem contLoop_raw_distinct (now : Nat) (ch cname : String) :
    ∀ (ls : List (List Char)) (inc : Bool) (seen : List (List Char)),
      (∀ it ∈ contLoop now ch cname inc seen ls, it.raw_line.data ∉ seen) ∧
        (contLoop now ch cname inc seen ls).Pairwise
          (fun a b => a.raw_line.data ≠ b.raw_line.data) := by
  intro ls
  induction ls with
  | nil => intro inc seen; exact ⟨(by intro it h; cases h), List.Pairwise.nil⟩
  | cons l rest ih =>
    intro inc seen
    simp only [contLoop]
    split
    · exact ih inc seen
    · split
      · exact ih true seen
      · split
        · exact ⟨(by intro it h; cases h), List.Pairwise.nil⟩
        · split
          · split
            · exact ih inc seen
            · rcases h : parse_item_line now ch (pyStrip l) cname with _ | it
              · have := ih inc (pyStrip l :: seen)
                refine ⟨fun it hm => ?_, this.2⟩
                have h2 := this.1 it hm
                intro hc
                exact h2 (List.mem_cons_of_mem _ hc)
              · have hr := parse_item_line_raw now ch (pyStrip l) cname it h
                have := ih inc (pyStrip l :: seen)
                constructor
                · intro it' hm
                  rcases List.mem_cons.mp hm with rfl | hm'
                  · rw [hr]; assumption
                  · have h2 := this.1 it' hm'
                    intro hc
                    exact h2 (List.mem_cons_of_mem _ hc)
                · refine List.Pairwise.cons (fun it' hm' => ?_) this.2
                  have h2 := this.1 it' hm'
                  rw [hr]
                  intro hc
                  exact h2 (hc ▸ List.mem_cons_self _ _)
          · exact ih inc seen

/-- C10: within a single inventory response or container response, the
emitted item records are pairwise distinct in their raw line text: the
parsers' `seen_items` set skips any data line whose exact text already
appeared earlier in the same response, so duplicate lines produce at most one
record. -/
theorem parsed_records_distinct_raw (now : Nat) (ch cname response : String) :
    (parse_inventory_output now ch response).Pairwise
      (fun a b => a.raw_line ≠ b.raw_line) ∧
    (parse_container_output now ch cname response).Pairwise
      (fun a b => a.raw_line ≠ b.raw_line) := by
  constructor
  · have := (invLoop_raw_distinct now ch (splitOnChar '\n' response.data) false []).2
    exact this.imp (fun h hc => h (congrArg String.data hc))
  · have := (contLoop_raw_distinct now ch cname (splitOnChar '\n' response.data)
      false []).2
    exact this.imp (fun h hc => h (congrArg String.data hc))

/-- Bridge between the Boolean `List.contains` and membership. -/
theorem containsBool_iff (l : List String) (a : String) :
    l.contains a = true ↔ a ∈ l :=
  List.elem_iff

/-- The detected-container accumulator of the detection loop is exactly the
fold of `insertNew` over the successful truthy mapping lookups. -/
theorem detectLoop_fst (m : List (String × String)) :
    ∀ (items : List ItemRecord) (det unk : List String),
      (detectLoop m items det unk).1 =
        (items.filterMap (mappedKeyword m)).foldl insertNew det := by
  intro items
  induction items with
  | nil => intro det unk; rfl
  | cons it rest ih =>
    intro det unk
    simp only [detectLoop, List.filterMap_cons, mappedKeyword]
    rcases h : find_container_mapping m (strip_item_flags it.item_name) with _ | kw
    · simp only []
      split
      · exact ih det (insertNew unk (strip_item_flags it.item_name))
      · exact ih det unk
    · by_cases hkw : kw = ""
      · subst hkw
        simp only [if_pos rfl, ne_eq, not_true_eq_false, if_false]
        split
        · exact ih det (insertNew unk (strip_item_flags it.item_name))
        · exact ih det unk
      · simp only [if_neg hkw, ne_eq, hkw, not_false_eq_true, if_true,
          List.foldl_cons]
        exact ih (insertNew det kw) unk

/-- Membership after a fold of `insertNew` comes from the start list or the
folded elements. -/
theorem mem_foldl_insertNew :
    ∀ (L : List String) (det : List String) (kw : String),
      kw ∈ L.foldl insertNew det → kw ∈ det ∨ kw ∈ L := by
  intro L
  induction L with
  | nil => intro det kw h; exact Or.inl h
  | cons a L' ih =>
    intro det kw h
    rcases ih (insertNew det a) kw h with h' | h'
    · simp only [insertNew] at h'
      split at h'
      · exact Or.inl h'
      · rcases List.mem_append.mp h' with h'' | h''
        · exact Or.inl h''
        · have hkw : kw = a := by simpa using h''
          exact Or.inr (hkw ▸ List.mem_cons_self _ _)
    · exact Or.inr (List.mem_cons_of_mem _ h')

/-- Appending a fresh element preserves pairwise distinctness. -/
theorem distinctL_append_singleton :
    ∀ (l : List String) (a : String), distinctL l = true → a ∉ l →
      distinctL (l ++ [a]) = true := by
  intro l
  induction l with
  | nil => intro a _ _; rfl
  | cons d dt ih =>
    intro a hd ha
    simp only [distinctL, Bool.and_eq_true, Bool.not_eq_true'] at hd
    have hda : d ≠ a := fun hc => ha (hc ▸ List.mem_cons_self _ _)
    have hdm : d ∉ dt := by
      intro hc
      have hb : dt.contains d = true := containsBool_iff dt d |>.mpr hc
      rw [hd.1] at hb
      cases hb
    simp only [List.cons_append, distinctL, Bool.and_eq_true, Bool.not_eq_true']
    refine ⟨?_, ih a hd.2 (fun hc => ha (List.mem_cons_of_mem _ hc))⟩
    have : d ∉ dt ++ [a] := by
      intro hc
      rcases List.mem_append.mp hc with h | h
      · exact hdm h
      · simp at h; exact hda h
    rw [Bool.eq_false_iff]
    intro hb
    exact this (containsBool_iff _ _ |>.mp hb)

/-- `insertNew` preserves pairwise distinctness. -/
theorem distinctL_insertNew (l : List String) (a : String)
    (h : distinctL l = true) : distinctL (insertNew l a) = true := by
  simp only [insertNew]
  split
  · exact h
  · exact distinctL_append_singleton l a h (by assumption)

/-- A fold of `insertNew` preserves pairwise distinctness. -/
theorem distinctL_foldl_insertNew :
    ∀ (L : List String) (det : List String), distinctL det = true →
      distinctL (L.foldl insertNew det) = true := by
  intro L
  induction L with
  | nil => intro det h; exact h
  | cons a L' ih => intro det h; exact ih _ (distinctL_insertNew det a h)

/-- C9: for every inventory batch, the detected (to-be-examined) container
keywords are exactly the deduplicated successful mapping-lookup results: the
list is pairwise distinct (each keyword examined at most once per batch) and
every entry is the keyword returned by a mapping lookup on some item's
flag-stripped name; items that do not resolve through the mapping table only
ever reach the unknown-potential-container report and contribute nothing to
the examined list. -/
theorem detected_containers_sound (m : List (String × String))
    (items : List ItemRecord) :
    (detect_containers_in_inventory m items).1 =
      (items.filterMap (mappedKeyword m)).foldl insertNew [] ∧
    distinctL (detect_containers_in_inventory m items).1 = true ∧
    ∀ kw ∈ (detect_containers_in_inventory m items).1,
      ∃ it ∈ items, mappedKeyword m it = some kw := by
  have h1 : (detect_containers_in_inventory m items).1 =
      (items.filterMap (mappedKeyword m)).foldl insertNew [] :=
    detectLoop_fst m items [] []
  refine ⟨h1, ?_, ?_⟩
  · rw [h1]
    exact distinctL_foldl_insertNew _ [] rfl
  · intro kw hkw
    rw [h1] at hkw
    rcases mem_foldl_insertNew _ [] kw hkw with h | h
    · cases h
    · exact List.mem_filterMap.mp h

/-- `takeWhile` passes over a fully satisfying first part. -/
theorem takeWhile_append_all {p : Char → Bool} :
    ∀ (l1 l2 : List Char), (∀ c ∈ l1, p c = true) →
      (l1 ++ l2).takeWhile p = l1 ++ l2.takeWhile p := by
  intro l1
  induction l1 with
  | nil => intro l2 _; rfl
  | cons c t ih =>
    intro l2 h
    have hc := h c (List.mem_cons_self _ _)
    simp [List.takeWhile_cons, hc,
      ih l2 (fun c' hc' => h c' (List.mem_cons_of_mem _ hc'))]

/-- `dropWhile` drops a fully satisfying first part. -/
theorem dropWhile_append_all {p : Char → Bool} :
    ∀ (l1 l2 : List Char), (∀ c ∈ l1, p c = true) →
      (l1 ++ l2).dropWhile p = l2.dropWhile p := by
  intro l1
  induction l1 with
  | nil => intro l2 _; rfl
  | cons c t ih =>
    intro l2 h
    have hc := h c (List.mem_cons_self _ _)
    simp only [List.cons_append, List.dropWhile_cons, hc, if_true]
    exact ih l2 (fun c' hc' => h c' (List.mem_cons_of_mem _ hc'))

/-- No line ending in a closing parenthesis is one of the rejected literal
lines. -/
theorem paren_end_not_badword (x : List Char) : pyLower (x ++ [')']) ∉ badWords := by
  intro h
  have hx : pyLower (x ++ [')']) = pyLower x ++ [')'] := by
    simp [pyLower]
  rw [hx] at h
  simp only [badWords, List.mem_cons, List.not_mem_nil, or_false] at h
  rcases h with h | h | h <;>
    · have := congrArg List.getLast? h
      rw [List.getLast?_concat] at this
      exact absurd this (by decide)

/-- The trailing-quantity regex matches a line of the shape
`prefix ++ "(" ++ digits ++ ")"` exactly as the digit group and the prefix. -/
theorem trailingQty_exact (s d : List Char) (hd : d ≠ [])
    (hdig : ∀ c ∈ d, c.isDigit = true) :
    trailingQty (s ++ '(' :: (d ++ [')'])) = some (d, s) := by
  have hrev : (s ++ '(' :: (d ++ [')'])).reverse =
      ')' :: (d.reverse ++ '(' :: s.reverse) := by
    simp
  have hdig' : ∀ c ∈ d.reverse, c.isDigit = true := by
    intro c hc; exact hdig c (List.mem_reverse.mp hc)
  have hdrop : (')' :: (d.reverse ++ '(' :: s.reverse)).dropWhile isSpc =
      ')' :: (d.reverse ++ '(' :: s.reverse) := by
    rw [List.dropWhile_cons_of_neg]
    simp [isSpc]
  have ht : (d.reverse ++ '(' :: s.reverse).takeWhile Char.isDigit = d.reverse := by
    rw [takeWhile_append_all _ _ hdig']
    simp [List.takeWhile_cons]
  have hdr : (d.reverse ++ '(' :: s.reverse).dropWhile Char.isDigit =
      '(' :: s.reverse := by
    rw [dropWhile_append_all _ _ hdig']
    rw [List.dropWhile_cons_of_neg]
    simp
  have hne : d.reverse ≠ [] := by
    intro hc
    exact hd (by simpa using congrArg List.reverse hc)
  simp only [trailingQty, hrev, hdrop, ht, hdr, if_neg hne, List.reverse_reverse]

/-- Left trim steps over a whitespace head. -/
theorem trimL_cons_spc {c : Char} {t : List Char} (h : isSpc c = true) :
    trimL (c :: t) = trimL t := by
  simp [trimL, List.dropWhile_cons, h]

/-- Left trim keeps a non-whitespace head. -/
theorem trimL_cons_nospc {c : Char} {t : List Char} (h : isSpc c = false) :
    trimL (c :: t) = c :: t := by
  simp [trimL, List.dropWhile_cons, h]

/-- Right trim of a cons whose tail does not trim away. -/
theorem trimR_cons_of_ne (c : Char) (t : List Char) (h : trimR t ≠ []) :
    trimR (c :: t) = c :: trimR t := by
  simp [trimR, h]

/-- Right trim of a cons headed by a non-whitespace character. -/
theorem trimR_cons_of_nospc (c : Char) (t : List Char) (h : isSpc c = false) :
    trimR (c :: t) = c :: trimR t := by
  simp [trimR, h]

/-- Right trim of an all-whitespace list is empty. -/
theorem trimR_cons_nil (c : Char) (t : List Char) (h1 : trimR t = [])
    (h2 : isSpc c = true) : trimR (c :: t) = [] := by
  simp [trimR, h1, h2]

/-- Dropping leading whitespace twice is the same as dropping once. -/
theorem trimL_idem (l : List Char) : trimL (trimL l) = trimL l := by
  induction l with
  | nil => rfl
  | cons c t ih =>
    by_cases hc : isSpc c = true
    · rw [trimL_cons_spc hc]; exact ih
    · rw [Bool.not_eq_true] at hc
      rw [trimL_cons_nospc hc, trimL_cons_nospc hc]

/-- A list whose right trim is empty is all whitespace, so its left trim is
also empty. -/
theorem trimL_eq_nil_of_trimR (l : List Char) (h : trimR l = []) : trimL l = [] := by
  induction l with
  | nil => rfl
  | cons c t ih =>
    simp only [trimR] at h
    split at h
    · next hcond =>
      simp only [Bool.and_eq_true, decide_eq_true_eq] at hcond
      rw [trimL_cons_spc hcond.2]
      exact ih hcond.1
    · cases h

/-- Right trim is idempotent. -/
theorem trimR_idem (l : List Char) : trimR (trimR l) = trimR l := by
  induction l with
  | nil => rfl
  | cons c t ih =>
    by_cases h1 : trimR t = []
    · by_cases hc : isSpc c = true
      · rw [trimR_cons_nil c t h1 hc]; rfl
      · rw [Bool.not_eq_true] at hc
        rw [trimR_cons_of_nospc c t hc, trimR_cons_of_nospc c (trimR t) hc, ih]
    · have h2 : trimR (trimR t) ≠ [] := by rw [ih]; exact h1
      rw [trimR_cons_of_ne c t h1, trimR_cons_of_ne c (trimR t) h2, ih]

/-- Left and right trims commute. -/
theorem trimL_trimR_comm (l : List Char) : trimL (trimR l) = trimR (trimL l) := by
  induction l with
  | nil => rfl
  | cons c t ih =>
    by_cases hc : isSpc c = true
    · by_cases h1 : trimR t = []
      · rw [trimR_cons_nil c t h1 hc, trimL_cons_spc hc,
          trimL_eq_nil_of_trimR t h1]
        rfl
      · rw [trimR_cons_of_ne c t h1, trimL_cons_spc hc, trimL_cons_spc hc, ih]
    · rw [Bool.not_eq_true] at hc
      rw [trimR_cons_of_nospc c t hc, trimL_cons_nospc hc, trimL_cons_nospc hc,
        trimR_cons_of_nospc c t hc]

/-- Python `strip` is idempotent. -/
theorem pyStrip_idem (l : List Char) : pyStrip (pyStrip l) = pyStrip l := by
  simp only [pyStrip]
  rw [trimL_trimR_comm, trimL_idem, trimR_idem]

/-- `clean_item_name` ignores outer whitespace of its input. -/
theorem cleanItemName_pyStrip (l : List Char) :
    cleanItemName (pyStrip l) = cleanItemName l := by
  simp only [cleanItemName, pyStrip_idem]

/-- C1 amended: for every item line of the shape `prefix ++ "(" ++ N ++ ")"`
with `N` a nonempty digit run and a prefix that cleans to a nonempty name,
`parse_item_line` returns a record whose quantity is exactly the digit string
`N` and whose stored item name is the cleaned prefix (whitespace-trimmed,
one leading article removed), which excludes the trailing parenthesized
suffix; in particular `"3 shining rubies (5)"` yields quantity `"5"` and
item name `"3 shining rubies"`: the leading numeral prefix is not treated as
a quantity but remains part of the stored name. -/
theorem parse_item_line_trailing_qty (now : Nat) (ch loc : String)
    (s d : List Char) (hd : d ≠ []) (hdig : ∀ c ∈ d, c.isDigit = true)
    (hname : cleanItemName s ≠ []) :
    parse_item_line now ch (s ++ '(' :: (d ++ [')'])) loc =
      some { character := ch, location := loc, item_name := ⟨cleanItemName s⟩,
             quantity := ⟨d⟩, scan_time := now,
             raw_line := ⟨s ++ '(' :: (d ++ [')'])⟩ } := by
  have hbw : pyLower (s ++ '(' :: (d ++ [')'])) ∉ badWords := by
    have he : s ++ '(' :: (d ++ [')']) = (s ++ '(' :: d) ++ [')'] := by simp
    rw [he]
    exact paren_end_not_badword _
  have hnil : s ++ '(' :: (d ++ [')']) ≠ [] := by simp
  simp only [parse_item_line, trailingQty_exact s d hd hdig,
    cleanItemName_pyStrip]
  rw [if_neg (by simp [hnil, hbw]), if_neg hname]

/-- C1 witness: the amended theorem applied to the scenario line
`"3 shining rubies (5)"`. -/
theorem parse_item_line_trailing_qty_witness :
    cleanItemName "3 shining rubies ".data ≠ [] ∧
    parse_item_line 0 "Kaan" "3 shining rubies (5)".data "inventory" =
      some { character := "Kaan", location := "inventory",
             item_name := "3 shining rubies", quantity := "5", scan_time := 0,
             raw_line := "3 shining rubies (5)" } := by
  constructor
  · decide
  · have h := parse_item_line_trailing_qty 0 "Kaan" "inventory"
      "3 shining rubies ".data ['5'] (by decide) (by decide) (by decide)
    have e : "3 shining rubies (5)".data =
        "3 shining rubies ".data ++ '(' :: (['5'] ++ [')']) := by decide
    rw [e]
    exact h.trans (by decide)

/-- A nonempty strip forces a nonempty right trim. -/
theorem trimR_ne_of_pyStrip (l : List Char) (h : pyStrip l ≠ []) : trimR l ≠ [] := by
  intro hc
  exact h (by simp [pyStrip, trimL_eq_nil_of_trimR l hc, trimR])

/-- Stripping after a right trim is just stripping. -/
theorem pyStrip_trimR (l : List Char) : pyStrip (trimR l) = pyStrip l := by
  simp only [pyStrip]
  rw [trimL_trimR_comm, trimR_idem]

/-- Article case `a` of name cleaning. -/
theorem clean_article_a (c : Char) (rest : List Char) (hc : c = 'a' ∨ c = 'A')
    (h : pyStrip rest ≠ []) : cleanItemName (c :: ' ' :: rest) = pyStrip rest := by
  have hR : trimR rest ≠ [] := trimR_ne_of_pyStrip rest h
  have h1 : trimR (' ' :: rest) = ' ' :: trimR rest := trimR_cons_of_ne _ _ hR
  have hcs : isSpc c = false := by rcases hc with rfl | rfl <;> rfl
  have h2 : pyStrip (c :: ' ' :: rest) = c :: ' ' :: trimR rest := by
    simp only [pyStrip]
    rw [trimL_cons_nospc hcs, trimR_cons_of_ne _ _ (by rw [h1]; simp), h1]
  have hlow : Char.toLower c = 'a' := by rcases hc with rfl | rfl <;> rfl
  have hsw : startsWithL ['a', ' '] (pyLower (c :: ' ' :: trimR rest)) = true := by
    simp [pyLower, startsWithL, hlow]
  simp only [cleanItemName, h2, articleDrop, hsw, if_true]
  exact pyStrip_trimR rest

/-- Article case `an` of name cleaning. -/
theorem clean_article_an (c1 c2 : Char) (rest : List Char)
    (hc1 : c1 = 'a' ∨ c1 = 'A') (hc2 : c2 = 'n' ∨ c2 = 'N')
    (h : pyStrip rest ≠ []) :
    cleanItemName (c1 :: c2 :: ' ' :: rest) = pyStrip rest := by
  have hR : trimR rest ≠ [] := trimR_ne_of_pyStrip rest h
  have h1 : trimR (' ' :: rest) = ' ' :: trimR rest := trimR_cons_of_ne _ _ hR
  have hcs1 : isSpc c1 = false := by rcases hc1 with rfl | rfl <;> rfl
  have hcs2 : isSpc c2 = false := by rcases hc2 with rfl | rfl <;> rfl
  have hne1 : trimR (' ' :: rest) ≠ [] := by rw [h1]; simp
  have hne2 : trimR (c2 :: ' ' :: rest) ≠ [] := by
    rw [trimR_cons_of_ne _ _ hne1]; simp
  have h2 : pyStrip (c1 :: c2 :: ' ' :: rest) = c1 :: c2 :: ' ' :: trimR rest := by
    simp only [pyStrip]
    rw [trimL_cons_nospc hcs1, trimR_cons_of_ne _ _ hne2,
      trimR_cons_of_ne _ _ hne1, h1]
  have hl1 : Char.toLower c1 = 'a' := by rcases hc1 with rfl | rfl <;> rfl
  have hl2 : Char.toLower c2 = 'n' := by rcases hc2 with rfl | rfl <;> rfl
  have hsw1 : startsWithL ['a', ' '] (pyLower (c1 :: c2 :: ' ' :: trimR rest)) =
      false := by
    simp [pyLower, startsWithL, hl1, hl2]
  have hsw2 : startsWithL ['a', 'n', ' ']
      (pyLower (c1 :: c2 :: ' ' :: trimR rest)) = true := by
    simp [pyLower, startsWithL, hl1, hl2]
  simp only [cleanItemName, h2, articleDrop, hsw1, hsw2, if_true,
    Bool.false_eq_true, if_false]
  exact pyStrip_trimR rest

/-- Article case `the` of name cleaning. -/
theorem clean_article_the (c1 c2 c3 : Char) (rest : List Char)
    (hc1 : c1 = 't' ∨ c1 = 'T') (hc2 : c2 = 'h' ∨ c2 = 'H')
    (hc3 : c3 = 'e' ∨ c3 = 'E') (h : pyStrip rest ≠ []) :
    cleanItemName (c1 :: c2 :: c3 :: ' ' :: rest) = pyStrip rest := by
  have hR : trimR rest ≠ [] := trimR_ne_of_pyStrip rest h
  have h1 : trimR (' ' :: rest) = ' ' :: trimR rest := trimR_cons_of_ne _ _ hR
  have hcs1 : isSpc c1 = false := by rcases hc1 with rfl | rfl <;> rfl
  have hcs2 : isSpc c2 = false := by rcases hc2 with rfl | rfl <;> rfl
  have hcs3 : isSpc c3 = false := by rcases hc3 with rfl | rfl <;> rfl
  have hne1 : trimR (' ' :: rest) ≠ [] := by rw [h1]; simp
  have hne2 : trimR (c3 :: ' ' :: rest) ≠ [] := by
    rw [trimR_cons_of_ne _ _ hne1]; simp
  have hne3 : trimR (c2 :: c3 :: ' ' :: rest) ≠ [] := by
    rw [trimR_cons_of_ne _ _ hne2]; simp
  have h2 : pyStrip (c1 :: c2 :: c3 :: ' ' :: rest) =
      c1 :: c2 :: c3 :: ' ' :: trimR rest := by
    simp only [pyStrip]
    rw [trimL_cons_nospc hcs1, trimR_cons_of_ne _ _ hne3,
      trimR_cons_of_ne _ _ hne2, trimR_cons_of_ne _ _ hne1, h1]
  have hl1 : Char.toLower c1 = 't' := by rcases hc1 with rfl | rfl <;> rfl
  have hl2 : Char.toLower c2 = 'h' := by rcases hc2 with rfl | rfl <;> rfl
  have hl3 : Char.toLower c3 = 'e' := by rcases hc3 with rfl | rfl <;> rfl
  have hsw1 : startsWithL ['a', ' ']
      (pyLower (c1 :: c2 :: c3 :: ' ' :: trimR rest)) = false := by
    simp [pyLower, startsWithL, hl1]
  have hsw2 : startsWithL ['a', 'n', ' ']
      (pyLower (c1 :: c2 :: c3 :: ' ' :: trimR rest)) = false := by
    simp [pyLower, startsWithL, hl1]
  have hsw3 : startsWithL ['t', 'h', 'e', ' ']
      (pyLower (c1 :: c2 :: c3 :: ' ' :: trimR rest)) = true := by
    simp [pyLower, startsWithL, hl1, hl2, hl3]
  simp only [cleanItemName, h2, articleDrop, hsw1, hsw2, hsw3, if_true,
    Bool.false_eq_true, if_false]
  exact pyStrip_trimR rest

/-- Names whose trimmed form starts with no article are only whitespace
trimmed. -/
theorem clean_no_article (name : List Char)
    (h1 : startsWithL ['a', ' '] (pyLower (pyStrip name)) = false)
    (h2 : startsWithL ['a', 'n', ' '] (pyLower (pyStrip name)) = false)
    (h3 : startsWithL ['t', 'h', 'e', ' '] (pyLower (pyStrip name)) = false) :
    cleanItemName name = pyStrip name := by
  simp only [cleanItemName, articleDrop, h1, h2, h3, Bool.false_eq_true,
    if_false]
  exact pyStrip_idem name

/-- C7 amended: for every item name beginning with the article `a `, `an `,
or `the ` (case-insensitive) whose remainder is not all whitespace, the
cleaned stored name is that remainder with one leading article removed and
surrounding whitespace additionally stripped — byte-identical to the
remainder exactly when the remainder carries no leading or trailing
whitespace; names whose trimmed form does not begin with an article are left
unchanged by article removal (only whitespace-trimmed). -/
theorem clean_item_name_article_amended :
    (∀ (c : Char) (rest : List Char), (c = 'a' ∨ c = 'A') →
      pyStrip rest ≠ [] → cleanItemName (c :: ' ' :: rest) = pyStrip rest) ∧
    (∀ (c1 c2 : Char) (rest : List Char), (c1 = 'a' ∨ c1 = 'A') →
      (c2 = 'n' ∨ c2 = 'N') → pyStrip rest ≠ [] →
      cleanItemName (c1 :: c2 :: ' ' :: rest) = pyStrip rest) ∧
    (∀ (c1 c2 c3 : Char) (rest : List Char), (c1 = 't' ∨ c1 = 'T') →
      (c2 = 'h' ∨ c2 = 'H') → (c3 = 'e' ∨ c3 = 'E') → pyStrip rest ≠ [] →
      cleanItemName (c1 :: c2 :: c3 :: ' ' :: rest) = pyStrip rest) ∧
    (∀ name : List Char,
      startsWithL ['a', ' '] (pyLower (pyStrip name)) = false →
      startsWithL ['a', 'n', ' '] (pyLower (pyStrip name)) = false →
      startsWithL ['t', 'h', 'e', ' '] (pyLower (pyStrip name)) = false →
      cleanItemName name = pyStrip name) :=
  ⟨clean_article_a, clean_article_an, clean_article_the, clean_no_article⟩

/-- C7 witness: the amended theorem applied to `"The  Box "` (article case,
remainder with extra whitespace trimmed) and to `"red bag"` (no-article
case, unchanged). -/
theorem clean_item_name_article_amended_witness :
    pyStrip " Box ".data ≠ [] ∧
    cleanItemName "The  Box ".data = "Box".data ∧
    cleanItemName "red bag".data = "red bag".data := by
  refine ⟨by decide, ?_, ?_⟩
  · have h := clean_item_name_article_amended.2.2.1 'T' 'h' 'e' " Box ".data
      (Or.inr rfl) (Or.inl rfl) (Or.inl rfl) (by decide)
    have e : "The  Box ".data = 'T' :: 'h' :: 'e' :: ' ' :: " Box ".data := by
      decide
    rw [e]
    exact h.trans (by decide)
  · have h := clean_item_name_article_amended.2.2.2 "red bag".data
      (by decide) (by decide) (by decide)
    exact h.trans (by decide)

/-- Everything satisfying `p` after a replace was `s` or already present. -/
theorem any_replaceFirst (p : StatRecord → Bool) (s : StatRecord)
    (key : List Char) :
    ∀ l, (replaceFirst s key l).any p = true → p s = true ∨ l.any p = true := by
  intro l
  induction l with
  | nil =>
    intro h
    simp only [replaceFirst, List.any_cons, List.any_nil, Bool.or_false] at h
    exact Or.inl h
  | cons t rest ih =>
    intro h
    simp only [replaceFirst] at h
    split at h
    · rcases List.any_eq_true.mp h with ⟨b, hb, hpb⟩
      rcases List.mem_cons.mp hb with rfl | hb'
      · exact Or.inl hpb
      · exact Or.inr (List.any_eq_true.mpr ⟨b, List.mem_cons_of_mem _ hb', hpb⟩)
    · rcases List.any_eq_true.mp h with ⟨b, hb, hpb⟩
      rcases List.mem_cons.mp hb with rfl | hb'
      · exact Or.inr (List.any_eq_true.mpr ⟨b, List.mem_cons_self _ _, hpb⟩)
      · rcases ih (List.any_eq_true.mpr ⟨b, hb', hpb⟩) with h' | h'
        · exact Or.inl h'
        · rcases List.any_eq_true.mp h' with ⟨b', hb'', hpb'⟩
          exact Or.inr (List.any_eq_true.mpr
            ⟨b', List.mem_cons_of_mem _ hb'', hpb'⟩)

/-- Replacing a stat record preserves key distinctness. -/
theorem noDupKeys_replaceFirst (s : StatRecord) (key : List Char)
    (hkey : pyLower s.character.data = key) :
    ∀ l, noDupKeys l = true → noDupKeys (replaceFirst s key l) = true := by
  intro l
  induction l with
  | nil => intro _; simp [replaceFirst, noDupKeys]
  | cons t rest ih =>
    intro h
    simp only [noDupKeys, Bool.and_eq_true, Bool.not_eq_true'] at h
    simp only [replaceFirst]
    split
    · next hlt =>
      simp only [noDupKeys, Bool.and_eq_true, Bool.not_eq_true']
      refine ⟨?_, h.2⟩
      rw [hkey, ← hlt]
      exact h.1
    · next hlt =>
      simp only [noDupKeys, Bool.and_eq_true, Bool.not_eq_true']
      refine ⟨?_, ih h.2⟩
      rw [Bool.eq_false_iff]
      intro hany
      rcases any_replaceFirst _ s key rest hany with h' | h'
      · simp only [decide_eq_true_eq] at h'
        rw [hkey] at h'
        exact hlt h'.symm
      · rw [h.1] at h'
        cases h'

/-- The stats phase preserves key distinctness. -/
theorem noDupKeys_statsPhase (dm : DMState) (opt : Option StatRecord)
    (h : noDupKeys dm.character_stats = true) :
    noDupKeys (statsPhase dm opt).character_stats = true := by
  cases opt with
  | none => exact h
  | some s => exact noDupKeys_replaceFirst _ _ rfl _ h

/-- One `add_character_data` call preserves key distinctness. -/
theorem noDupKeys_add (dm : DMState) (data : List ItemRecord)
    (opt : Option StatRecord) (h : noDupKeys dm.character_stats = true) :
    noDupKeys (add_character_data dm data opt).character_stats = true := by
  cases data with
  | nil => exact noDupKeys_statsPhase dm opt h
  | cons first rest =>
    simp only [add_character_data]
    split
    · split
      · exact noDupKeys_statsPhase _ opt h
      · exact h
    · exact noDupKeys_statsPhase _ opt h

/-- Folding `add_character_data` calls preserves key distinctness. -/
theorem noDupKeys_foldl :
    ∀ (calls : List (List ItemRecord × Option StatRecord)) (dm : DMState),
      noDupKeys dm.character_stats = true →
      noDupKeys ((calls.foldl (fun d c => add_character_data d c.1 c.2)
        dm)).character_stats = true := by
  intro calls
  induction calls with
  | nil => intro dm h; exact h
  | cons c rest ih =>
    intro dm h
    exact ih _ (noDupKeys_add dm c.1 c.2 h)

/-- Filtering a replaced stats list for the replaced key finds exactly the
replacement. -/
theorem filter_replaceFirst (s : StatRecord) (key : List Char)
    (hkey : pyLower s.character.data = key) :
    ∀ l, noDupKeys l = true →
      (replaceFirst s key l).filter
        (fun t => pyLower t.character.data = key) = [s] := by
  intro l
  induction l with
  | nil => intro _; simp [replaceFirst, hkey]
  | cons t rest ih =>
    intro h
    simp only [noDupKeys, Bool.and_eq_true, Bool.not_eq_true'] at h
    simp only [replaceFirst]
    split
    · next hlt =>
      simp only [List.filter_cons, hkey, decide_true_eq_true]
      rw [if_pos (by simp [hkey])]
      have : rest.filter (fun t => pyLower t.character.data = key) = [] := by
        apply List.filter_eq_nil_iff.mpr
        intro b hb
        simp only [decide_eq_true_eq]
        intro hc
        have hany := h.1
        rw [List.any_eq_false] at hany
        exact hany b hb (by simp [hc, hlt])
      rw [this]
    · next hlt =>
      simp only [List.filter_cons]
      rw [if_neg (by simp [hlt]), ih h.2]

/-- Re-stamping a record with its own character name is the identity. -/
theorem setChar_self (it : ItemRecord) (n : String) (h : it.character = n) :
    ({ it with character := n } : ItemRecord) = it := by
  cases it
  simp_all

/-- Normalizing a batch that already carries its character name is the
identity. -/
theorem map_setChar_self (B : List ItemRecord) (n : String)
    (hB : ∀ it ∈ B, it.character = n) :
    B.map (fun it => { it with character := n }) = B := by
  induction B with
  | nil => rfl
  | cons it rest ih =>
    simp only [List.map_cons]
    rw [setChar_self it n (hB it (List.mem_cons_self _ _)),
      ih (fun it' h' => hB it' (List.mem_cons_of_mem _ h'))]

/-- Re-stamping a stat record with its own character name is the identity. -/
theorem statSetChar_self (s : StatRecord) (n : String) (h : s.character = n) :
    ({ s with character := n } : StatRecord) = s := by
  cases s
  simp_all

/-- Normalization is the identity on already-stripped names. -/
theorem normalize_self (n : String) (h : pyStrip n.data = n.data) :
    normalize_character_name n = n := by
  simp only [normalize_character_name, h]

/-- The items phase on a batch uniformly named `n` (with `n` stripped)
replaces `n`'s items. -/
theorem itemsPhase_same (dm : DMState) (B : List ItemRecord) (n : String)
    (hall : ∀ it ∈ B, it.character = n) (hstrip : pyStrip n.data = n.data) :
    itemsPhase dm B n =
      { dm with all_data :=
          dm.all_data.filter (fun it => it.character ≠ n) ++ B } := by
  by_cases hH : isHouseName n = true
  · simp only [itemsPhase, hH, if_true]
  · rw [Bool.not_eq_true] at hH
    simp only [itemsPhase, hH, Bool.false_eq_true, if_false]
    rw [normalize_self n hstrip, map_setChar_self B n hall]

/-- The stats phase on a stat record named `n` (with `n` stripped) replaces
`n`'s stat record. -/
theorem statsPhase_same (dm : DMState) (s : StatRecord) (n : String)
    (hs : s.character = n) (hstrip : pyStrip n.data = n.data) :
    statsPhase dm (some s) =
      { dm with character_stats :=
          replaceFirst s (pyLower n.data) dm.character_stats } := by
  have hnn : (if isHouseName n then n else normalize_character_name n) = n := by
    split
    · rfl
    · exact normalize_self n hstrip
  simp only [statsPhase, hs, hnn]
  rw [statSetChar_self s n hs]

/-- One `add_character_data` call for a clean, stripped, uniformly named
batch replaces exactly that character's items and stat record. -/
theorem add_same_name (dm : DMState) (B : List ItemRecord) (s : StatRecord)
    (n : String) (hB : B ≠ []) (hall : ∀ it ∈ B, it.character = n)
    (hs : s.character = n) (hansi : ansiSuspect n.data = false)
    (hstrip : pyStrip n.data = n.data) :
    add_character_data dm B (some s) =
      { all_data := dm.all_data.filter (fun it => it.character ≠ n) ++ B,
        character_stats :=
          replaceFirst s (pyLower n.data) dm.character_stats } := by
  rcases B with _ | ⟨first, rest⟩
  · exact absurd rfl hB
  · have hfirst : first.character = n := hall first (List.mem_cons_self _ _)
    simp only [add_character_data, hfirst, hansi, Bool.false_eq_true, if_false]
    rw [itemsPhase_same dm (first :: rest) n hall hstrip,
      statsPhase_same _ s n hs hstrip]

/-- Filtering for a name after filtering it away yields nothing. -/
theorem filter_ne_eq_nil (l : List ItemRecord) (n : String) :
    (l.filter (fun it => it.character ≠ n)).filter
      (fun it => it.character = n) = [] := by
  apply List.filter_eq_nil_iff.mpr
  intro a ha
  have h2 := (List.mem_filter.mp ha).2
  simp only [ne_eq, decide_not, Bool.not_eq_true', decide_eq_false_iff_not] at h2
  simp [h2]

/-- C3: after any sequence of `add_character_data` calls starting from the
empty working set, the stats list holds at most one record per lowered
character name; and rescanning a character (a second `add_character_data`
call for the same uniformly named, ANSI-clean, whitespace-stripped name)
replaces that character's prior item records and prior stat record rather
than appending duplicates: afterwards the items stored under that name are
exactly the second batch and the stat records under that (case-insensitive)
name are exactly the second stat record. -/
theorem add_character_data_dedup_replace :
    (∀ calls : List (List ItemRecord × Option StatRecord),
      noDupKeys (runAdds calls).character_stats = true) ∧
    (∀ (dm : DMState) (B1 B2 : List ItemRecord) (s1 s2 : StatRecord)
        (n : String),
      noDupKeys dm.character_stats = true →
      B1 ≠ [] → B2 ≠ [] →
      (∀ it ∈ B1, it.character = n) → (∀ it ∈ B2, it.character = n) →
      s1.character = n → s2.character = n →
      ansiSuspect n.data = false → pyStrip n.data = n.data →
      ((add_character_data (add_character_data dm B1 (some s1)) B2
          (some s2)).all_data.filter (fun it => it.character = n)) = B2 ∧
      ((add_character_data (add_character_data dm B1 (some s1)) B2
          (some s2)).character_stats.filter
          (fun t => pyLower t.character.data = pyLower n.data)) = [s2]) := by
  constructor
  · intro calls
    exact noDupKeys_foldl calls DMState.empty rfl
  · intro dm B1 B2 s1 s2 n h hB1 hB2 hall1 hall2 hs1 hs2 hansi hstrip
    rw [add_same_name dm B1 s1 n hB1 hall1 hs1 hansi hstrip,
      add_same_name _ B2 s2 n hB2 hall2 hs2 hansi hstrip]
    constructor
    · rw [List.filter_append, filter_ne_eq_nil, List.nil_append]
      exact List.filter_eq_self.mpr (fun a ha => by simp [hall2 a ha])
    · exact filter_replaceFirst s2 (pyLower n.data) (by rw [hs2]) _
        (noDupKeys_replaceFirst s1 (pyLower n.data) (by rw [hs1]) _ h)

/-- C3 witness: the theorem applied to a concrete rescan of character
`"Kaan"` over the empty working set. -/
theorem add_character_data_dedup_replace_witness :
    ansiSuspect "Kaan".data = false ∧
    ((add_character_data (add_character_data DMState.empty
        [{ character := "Kaan", location := "inventory", item_name := "bag",
           quantity := "1", scan_time := 0, raw_line := "a bag" }]
        (some ⟨"Kaan", []⟩))
        [{ character := "Kaan", location := "inventory", item_name := "hat",
           quantity := "1", scan_time := 1, raw_line := "a hat" }]
        (some ⟨"Kaan", [("class", "Mage")]⟩)).all_data.filter
        (fun it => it.character = "Kaan")) =
      [{ character := "Kaan", location := "inventory", item_name := "hat",
         quantity := "1", scan_time := 1, raw_line := "a hat" }] ∧
    ((add_character_data (add_character_data DMState.empty
        [{ character := "Kaan", location := "inventory", item_name := "bag",
           quantity := "1", scan_time := 0, raw_line := "a bag" }]
        (some ⟨"Kaan", []⟩))
        [{ character := "Kaan", location := "inventory", item_name := "hat",
           quantity := "1", scan_time := 1, raw_line := "a hat" }]
        (some ⟨"Kaan", [("class", "Mage")]⟩)).character_stats.filter
        (fun t => pyLower t.character.data = pyLower "Kaan".data)) =
      [⟨"Kaan", [("class", "Mage")]⟩] := by
  refine ⟨by decide, ?_⟩
  exact add_character_data_dedup_replace.2 DMState.empty _ _ _ _ "Kaan"
    (by decide) (by decide) (by decide) (by decide) (by decide) rfl rfl
    (by decide) (by decide)
